import Mathlib

/-
Shallow embedding of the AACRM data layer.

Sources embedded here:
* the entity types of src/types/crm.ts (latest variant, with vendorIds /
  vendorCosts / wix fields);
* the data-store hook of src/unnamed/part_009 (useCrmData): id and item
  normalization, add / update / delete per entity, vendor-delete cascade,
  and the wix generate / send / collect mirror operations;
* the dashboard aggregation and the bulk text import of src/unnamed/part_007
  (overview, splitLine, normalizeStatus, parseDateValue, parseBudgetValue,
  parseClientsFromText).

Modeling conventions:
* JS numbers are modeled as Int; none of the verified claims depends on
  fractional or non-finite values.
* TS optional fields are Option; a JS Record<string, number> is an
  insertion-ordered association list.
* The nondeterministic environment calls nanoid() and new Date() are
  explicit parameters (a fresh id / a fresh id supply indexed by position /
  a timestamp string), and the host Date parser and parseFloat used by the
  importer are oracle parameters, since their behavior is the browser
  runtime, not code of this repository.
* TS string-literal unions ("confirmed", "paid", ...) are plain String,
  matching the erased JS runtime on which the code compares with === .
-/

structure Client where
  id : String
  name : String
  email : String
  phone : Option String
  status : String
  eventDate : Option String
  budget : Option Int
  notes : Option String
deriving Repr, DecidableEq

structure Vendor where
  id : String
  name : String
  service : String
  cost : Option Int
  email : Option String
  phone : Option String
  website : Option String
  preferredContact : Option String
  notes : Option String
deriving Repr, DecidableEq

structure Event where
  id : String
  name : String
  date : String
  clientId : String
  venue : String
  venueCost : Option Int
  coordinator : String
  timeline : Option String
  vendorIds : Option (List String)
  vendorCosts : Option (List (String × Int))
  status : String
  estimate : Option Int
  deposit : Option Int
  depositPaid : Option Bool
deriving Repr, DecidableEq

structure InvoiceItem where
  id : String
  description : String
  amount : Int
deriving Repr, DecidableEq

/-- InvoiceItemInput models `InvoiceItem | Omit<InvoiceItem, "id">`: the id
may be absent. -/
structure InvoiceItemInput where
  id : Option String
  description : String
  amount : Int
deriving Repr, DecidableEq

structure InvoiceWixDetails where
  status : String
  invoiceId : Option String
  paymentLink : Option String
  lastActionAt : Option String
deriving Repr, DecidableEq

structure Invoice where
  id : String
  clientId : String
  issueDate : String
  dueDate : String
  status : String
  total : Int
  items : List InvoiceItem
  notes : Option String
  wix : Option InvoiceWixDetails
deriving Repr, DecidableEq

/-- InvoiceInput models the `Omit<Invoice, "id">` argument of addInvoice /
updateInvoice; its id field (ignored by the store, which always imposes its
own id) lets us state that a patch carrying a different id cannot change the
record id.  Items may lack ids. -/
structure InvoiceInput where
  id : Option String
  clientId : String
  issueDate : String
  dueDate : String
  status : String
  total : Int
  items : List InvoiceItemInput
  notes : Option String
  wix : Option InvoiceWixDetails
deriving Repr, DecidableEq

structure CRMData where
  clients : List Client
  vendors : List Vendor
  events : List Event
  invoices : List Invoice
deriving Repr, DecidableEq

/-- withInvoiceItemId: keep a present non-empty id (JS truthiness of
`item.id`), otherwise assign the supplied freshly generated id. -/
def withInvoiceItemId (fresh : String) (item : InvoiceItemInput) : InvoiceItem :=
  match item.id with
  | some i =>
      if i != "" then { id := i, description := item.description, amount := item.amount }
      else { id := fresh, description := item.description, amount := item.amount }
  | none => { id := fresh, description := item.description, amount := item.amount }

/-- normalizeInvoiceItemsFrom maps withInvoiceItemId over the items, drawing
the fresh id for position k from the supply `gen k`. -/
def normalizeInvoiceItemsFrom (gen : Nat → String) (k : Nat) : List InvoiceItemInput → List InvoiceItem
  | [] => []
  | item :: rest => withInvoiceItemId (gen k) item :: normalizeInvoiceItemsFrom gen (k + 1) rest

/-- normalizeInvoiceItems is `items.map(withInvoiceItemId)` with the global
nanoid() supply made explicit. -/
def normalizeInvoiceItems (gen : Nat → String) (items : List InvoiceItemInput) : List InvoiceItem :=
  normalizeInvoiceItemsFrom gen 0 items

/-- vendorIdOk v vendors is the `validVendorIds.has(v)` test: some vendor in
the collection has this id. -/
def vendorIdOk (vendors : List Vendor) (v : String) : Bool :=
  vendors.any (fun u => u.id == v)

/-- dedupKeepFirst is `Array.from(new Set(xs))`: keep the first occurrence of
each element, in order; `seen` accumulates the elements already emitted. -/
def dedupKeepFirst (seen : List String) : List String → List String
  | [] => []
  | x :: xs =>
      if x ∈ seen then dedupKeepFirst seen xs
      else x :: dedupKeepFirst (x :: seen) xs

/-- sanitizeVendorIds: a missing list is treated as empty; entries are
filtered to ids of existing vendors, then deduplicated keeping first
occurrences. -/
def sanitizeVendorIds (vendorIds : Option (List String)) (vendors : List Vendor) : List String :=
  match vendorIds with
  | none => []
  | some ids => dedupKeepFirst [] (ids.filter (fun v => vendorIdOk vendors v))

/-- sanitizeVendorCosts keeps only entries whose key is among the sanitized
vendorIds and whose value is a valid non-negative number. -/
def sanitizeVendorCosts (vendorCosts : Option (List (String × Int))) (vendorIds : List String) : List (String × Int) :=
  match vendorCosts with
  | none => []
  | some entries => entries.filter (fun p => vendorIds.contains p.1 && decide (0 ≤ p.2))

/-- normalizeEvent: sanitize vendorIds and vendorCosts (empty results
collapse to none, mirroring `length > 0 ? x : undefined`), and drop a
negative venueCost. -/
def normalizeEvent (event : Event) (vendors : List Vendor) : Event :=
  let vendorIds := sanitizeVendorIds event.vendorIds vendors
  let vendorCosts := sanitizeVendorCosts event.vendorCosts vendorIds
  let venueCost :=
    match event.venueCost with
    | some c => if 0 ≤ c then some c else none
    | none => none
  { event with
    vendorIds := if vendorIds.length > 0 then some vendorIds else none
    vendorCosts := if vendorCosts.length > 0 then some vendorCosts else none
    venueCost := venueCost }

/-- ensureWixDetails mirrors the defaulting of the nested sync record:
`status: wix?.status ?? "not_created"` and pass-through of the other
fields. -/
def ensureWixDetails (wix : Option InvoiceWixDetails) : InvoiceWixDetails :=
  { status := (wix.map (fun w => w.status)).getD "not_created"
    invoiceId := wix.bind (fun w => w.invoiceId)
    paymentLink := wix.bind (fun w => w.paymentLink)
    lastActionAt := wix.bind (fun w => w.lastActionAt) }

/-- addClient: `clients: [withGeneratedId(client), ...current.clients]`; the
input carries no id, so withGeneratedId always uses the fresh nanoid. -/
def addClient (fresh : String) (client : Client) (s : CRMData) : CRMData :=
  { s with clients := { client with id := fresh } :: s.clients }

/-- updateClient: `{...entry, ...client, id: clientId}` on the matching
entry; form call sites supply every field, so spread replaces all fields and
the explicit id wins. -/
def updateClient (clientId : String) (client : Client) (s : CRMData) : CRMData :=
  { s with clients := s.clients.map (fun entry =>
      if entry.id == clientId then { client with id := clientId } else entry) }

def deleteClient (clientId : String) (s : CRMData) : CRMData :=
  { s with clients := s.clients.filter (fun entry => entry.id != clientId) }

def addVendor (fresh : String) (vendor : Vendor) (s : CRMData) : CRMData :=
  { s with vendors := { vendor with id := fresh } :: s.vendors }

def updateVendor (vendorId : String) (vendor : Vendor) (s : CRMData) : CRMData :=
  { s with vendors := s.vendors.map (fun entry =>
      if entry.id == vendorId then { vendor with id := vendorId } else entry) }

/-- pruneVendorFromEvent is the per-event body of the deleteVendor cascade:
events whose vendorIds does not include the id (in particular when
vendorIds is unset) are returned unchanged; otherwise the id is removed
from vendorIds and its key deleted from vendorCosts, empty results
collapsing to none. -/
def pruneVendorFromEvent (vendorId : String) (event : Event) : Event :=
  if !((event.vendorIds.getD []).contains vendorId) then event
  else
    let nextVendorIds := (event.vendorIds.getD []).filter (fun i => i != vendorId)
    let nextVendorCosts := (event.vendorCosts.getD []).filter (fun p => p.1 != vendorId)
    { event with
      vendorIds := if nextVendorIds.length > 0 then some nextVendorIds else none
      vendorCosts := if nextVendorCosts.length > 0 then some nextVendorCosts else none }

def deleteVendor (vendorId : String) (s : CRMData) : CRMData :=
  { s with
    vendors := s.vendors.filter (fun entry => entry.id != vendorId)
    events := s.events.map (pruneVendorFromEvent vendorId) }

def addEvent (fresh : String) (event : Event) (s : CRMData) : CRMData :=
  { s with events := { normalizeEvent event s.vendors with id := fresh } :: s.events }

def updateEvent (eventId : String) (event : Event) (s : CRMData) : CRMData :=
  { s with events := s.events.map (fun entry =>
      if entry.id == eventId then { normalizeEvent event s.vendors with id := eventId } else entry) }

def deleteEvent (eventId : String) (s : CRMData) : CRMData :=
  { s with events := s.events.filter (fun entry => entry.id != eventId) }

def addInvoice (fresh : String) (gen : Nat → String) (invoice : InvoiceInput) (s : CRMData) : CRMData :=
  { s with invoices :=
      { id := fresh
        clientId := invoice.clientId
        issueDate := invoice.issueDate
        dueDate := invoice.dueDate
        status := invoice.status
        total := invoice.total
        items := normalizeInvoiceItems gen invoice.items
        notes := invoice.notes
        wix := some (ensureWixDetails invoice.wix) } ::
      s.invoices.map (fun entry => { entry with wix := some (ensureWixDetails entry.wix) }) }

/-- updateInvoice: the matching entry takes all patch fields (id forced back
to invoiceId, items normalized, wix defaulted from `invoice.wix ??
entry.wix`); every other entry gets its wix record normalized too. -/
def updateInvoice (gen : Nat → String) (invoiceId : String) (invoice : InvoiceInput) (s : CRMData) : CRMData :=
  { s with invoices := s.invoices.map (fun entry =>
      if entry.id == invoiceId then
        { id := invoiceId
          clientId := invoice.clientId
          issueDate := invoice.issueDate
          dueDate := invoice.dueDate
          status := invoice.status
          total := invoice.total
          items := normalizeInvoiceItems gen invoice.items
          notes := invoice.notes
          wix := some (ensureWixDetails (invoice.wix <|> entry.wix)) }
      else { entry with wix := some (ensureWixDetails entry.wix) }) }

def deleteInvoice (invoiceId : String) (s : CRMData) : CRMData :=
  { s with invoices := s.invoices.filter (fun entry => entry.id != invoiceId) }

def buildWixInvoiceLink (invoiceId : String) : String :=
  "https://manage.wix.com/dashboard/business-tools/invoices/" ++ invoiceId

/-- generateWixEntry is the per-invoice body of generateWixInvoice; `fresh`
stands for the nanoid(6) suffix and `now` for new Date().toISOString(). -/
def generateWixEntry (fresh now invoiceId : String) (entry : Invoice) : Invoice :=
  if entry.id != invoiceId then { entry with wix := some (ensureWixDetails entry.wix) }
  else
    let wix := ensureWixDetails entry.wix
    let wixInvoiceId := wix.invoiceId.getD ("wix-" ++ invoiceId ++ "-" ++ fresh)
    let paymentLink := wix.paymentLink.getD (buildWixInvoiceLink wixInvoiceId)
    { entry with wix := some { wix with
        invoiceId := some wixInvoiceId
        paymentLink := some paymentLink
        status := "generated"
        lastActionAt := some now } }

def generateWixInvoice (fresh now invoiceId : String) (s : CRMData) : CRMData :=
  { s with invoices := s.invoices.map (generateWixEntry fresh now invoiceId) }

/-- sendWixEntry also advances the invoice's own status to "sent" unless it
is already "paid". -/
def sendWixEntry (fresh now invoiceId : String) (entry : Invoice) : Invoice :=
  if entry.id != invoiceId then { entry with wix := some (ensureWixDetails entry.wix) }
  else
    let wix := ensureWixDetails entry.wix
    let wixInvoiceId := wix.invoiceId.getD ("wix-" ++ invoiceId ++ "-" ++ fresh)
    let paymentLink := wix.paymentLink.getD (buildWixInvoiceLink wixInvoiceId)
    { entry with
      status := if entry.status == "paid" then entry.status else "sent"
      wix := some { wix with
        invoiceId := some wixInvoiceId
        paymentLink := some paymentLink
        status := "sent"
        lastActionAt := some now } }

def sendWixInvoice (fresh now invoiceId : String) (s : CRMData) : CRMData :=
  { s with invoices := s.invoices.map (sendWixEntry fresh now invoiceId) }

/-- collectWixEntry sets the invoice's own status to "paid"
unconditionally. -/
def collectWixEntry (fresh now invoiceId : String) (entry : Invoice) : Invoice :=
  if entry.id != invoiceId then { entry with wix := some (ensureWixDetails entry.wix) }
  else
    let wix := ensureWixDetails entry.wix
    let wixInvoiceId := wix.invoiceId.getD ("wix-" ++ invoiceId ++ "-" ++ fresh)
    let paymentLink := wix.paymentLink.getD (buildWixInvoiceLink wixInvoiceId)
    { entry with
      status := "paid"
      wix := some { wix with
        invoiceId := some wixInvoiceId
        paymentLink := some paymentLink
        status := "paid"
        lastActionAt := some now } }

def collectWixPayment (fresh now invoiceId : String) (s : CRMData) : CRMData :=
  { s with invoices := s.invoices.map (collectWixEntry fresh now invoiceId) }

/-- totalConfirmedEstimate: `confirmedEvents.reduce((sum, e) => sum + (e.estimate ?? 0), 0)`. -/
def totalConfirmedEstimate (events : List Event) : Int :=
  (events.filter (fun e => e.status == "confirmed")).foldl (fun sum e => sum + e.estimate.getD 0) 0

def totalConfirmedDeposits (events : List Event) : Int :=
  (events.filter (fun e => e.status == "confirmed")).foldl (fun sum e => sum + e.deposit.getD 0) 0

/-- pipelineConfirmed: `Math.max(totalConfirmedEstimate - totalConfirmedDeposits, 0)`. -/
def pipelineConfirmed (events : List Event) : Int :=
  max (totalConfirmedEstimate events - totalConfirmedDeposits events) 0

/-- pipelineProposed: sum of estimates over events whose status is not
"confirmed". -/
def pipelineProposed (events : List Event) : Int :=
  (events.filter (fun e => e.status != "confirmed")).foldl (fun sum e => sum + e.estimate.getD 0) 0

/-- jsTrim models String.prototype.trim: drop whitespace from both ends.  It
is implemented structurally over the character list (unlike the library
String.trim, which the kernel cannot evaluate) so that concrete runs of the
importer reduce. -/
def jsTrim (s : String) : String :=
  ⟨((s.data.dropWhile Char.isWhitespace).reverse.dropWhile Char.isWhitespace).reverse⟩

/-- jsToLower models String.prototype.toLowerCase on the ASCII data the
importer handles. -/
def jsToLower (s : String) : String :=
  ⟨s.data.map Char.toLower⟩

def hasSubAux (needle : List Char) : List Char → Bool
  | [] => needle.isEmpty
  | c :: rest => needle.isPrefixOf (c :: rest) || hasSubAux needle rest

/-- containsSub decides whether needle occurs contiguously in hay, as JS
String.includes. -/
def containsSub (needle hay : String) : Bool :=
  hasSubAux needle.data hay.data

def splitOnCharAux (sep : Char) (acc : List Char) : List Char → List (List Char)
  | [] => [acc.reverse]
  | c :: rest =>
      if c == sep then acc.reverse :: splitOnCharAux sep [] rest
      else splitOnCharAux sep (c :: acc) rest

/-- splitOnChar models String.prototype.split with a single-character
separator (used for the pipe, comma and newline splits). -/
def splitOnChar (sep : Char) (s : String) : List String :=
  (splitOnCharAux sep [] s.data).map (fun l => ⟨l⟩)

def splitDashAux (acc : List Char) : List Char → List (List Char)
  | ' ' :: '-' :: ' ' :: rest => acc.reverse :: splitDashAux [] rest
  | c :: rest => splitDashAux (c :: acc) rest
  | [] => [acc.reverse]

/-- splitOnDash models String.prototype.split with the three-character
separator " - ". -/
def splitOnDash (s : String) : List String :=
  (splitDashAux [] s.data).map (fun l => ⟨l⟩)

/-- normalizeStatus: JS falsy check on the raw value, exact match against the
four statuses, then fuzzy substring matching, defaulting to "lead". -/
def normalizeStatus (value : Option String) : String :=
  match value with
  | none => "lead"
  | some v =>
      if v == "" then "lead"
      else
        let normalized := jsToLower (jsTrim v)
        if ["lead", "booked", "planning", "completed"].contains normalized then normalized
        else if containsSub "book" normalized then "booked"
        else if containsSub "plan" normalized then "planning"
        else if containsSub "wrap" normalized || containsSub "complete" normalized then "completed"
        else "lead"

/-- parseDateValue: empty or missing input is none; otherwise the host
Date parse + toISOString().slice(0, 10) is the oracle `jsDate` (none when
getTime() is NaN). -/
def parseDateValue (jsDate : String → Option String) (value : Option String) : Option String :=
  match value with
  | none => none
  | some v =>
      let trimmed := jsTrim v
      if trimmed == "" then none else jsDate trimmed

/-- parseBudgetValue: strip every character other than digits, dot, comma,
minus, then drop commas; an empty remainder is none, otherwise the host
Number.parseFloat is the oracle (none when NaN). -/
def parseBudgetValue (jsFloat : String → Option Int) (value : Option String) : Option Int :=
  match value with
  | none => none
  | some v =>
      let cleaned : String :=
        ⟨(v.data.filter (fun c => c.isDigit || c == '.' || c == ',' || c == '-')).filter
          (fun c => c != ',')⟩
      if cleaned == "" then none else jsFloat cleaned

/-- splitLine: split on pipe, else comma, else " - ", else the whole trimmed
line; each candidate split trims its parts and drops empty ones and is used
only when it yields more than one part. -/
def splitLine (line : String) : List String :=
  let pipeParts := ((splitOnChar '|' line).map jsTrim).filter (fun p => p != "")
  if pipeParts.length > 1 then pipeParts
  else
    let commaParts := ((splitOnChar ',' line).map jsTrim).filter (fun p => p.length > 0)
    if commaParts.length > 1 then commaParts
    else
      let dashParts := ((splitOnDash line).map jsTrim).filter (fun p => p != "")
      if dashParts.length > 1 then dashParts
      else [jsTrim line]

/-- collapseTabRunsAux replaces each maximal run of tab characters by a
single space, as `field.replace(/\t+/g, " ")`; the flag records whether the
previous character was a tab. -/
def collapseTabRunsAux : Bool → List Char → List Char
  | _, [] => []
  | inRun, c :: rest =>
      if c == '\t' then
        if inRun then collapseTabRunsAux true rest
        else ' ' :: collapseTabRunsAux true rest
      else c :: collapseTabRunsAux false rest

def collapseTabRuns (s : String) : String :=
  ⟨collapseTabRunsAux false s.data⟩

/-- ClientDraft is the `Omit<Client, "id">` record produced by the bulk text
importer. -/
structure ClientDraft where
  name : String
  email : String
  phone : Option String
  status : String
  eventDate : Option String
  budget : Option Int
  notes : Option String
deriving Repr, DecidableEq

structure ParseClientsResult where
  created : List ClientDraft
  skipped : List String
deriving Repr, DecidableEq

/-- parseOneLine: split the line into fields, collapse tab runs and trim,
skip when no first field or empty name, otherwise map fields positionally to
name, email (default empty), phone, status, eventDate, budget and join the
remaining fields with a comma-space into notes. -/
def parseOneLine (jsDate : String → Option String) (jsFloat : String → Option Int)
    (line : String) : Sum ClientDraft String :=
  let fields := (splitLine line).map (fun field => jsTrim (collapseTabRuns field))
  match fields with
  | [] => Sum.inr line
  | name :: restFields =>
      if name == "" then Sum.inr line
      else
        let notes := jsTrim (String.intercalate ", " (restFields.drop 5))
        Sum.inl
          { name := name
            email := restFields.getD 0 ""
            phone :=
              match restFields[1]? with
              | some p => if p.length > 0 then some p else none
              | none => none
            status := normalizeStatus restFields[2]?
            eventDate := parseDateValue jsDate restFields[3]?
            budget := parseBudgetValue jsFloat restFields[4]?
            notes := if notes.length > 0 then some notes else none }

def parseClientsLines (jsDate : String → Option String) (jsFloat : String → Option Int) :
    List String → ParseClientsResult
  | [] => { created := [], skipped := [] }
  | line :: rest =>
      let r := parseClientsLines jsDate jsFloat rest
      match parseOneLine jsDate jsFloat line with
      | Sum.inl draft => { created := draft :: r.created, skipped := r.skipped }
      | Sum.inr skippedLine => { created := r.created, skipped := skippedLine :: r.skipped }

/-- parseClientsFromText: split the text into lines (a trailing carriage
return is removed by the trim), trim them, drop empty ones, and parse each
remaining line. -/
def parseClientsFromText (jsDate : String → Option String) (jsFloat : String → Option Int)
    (text : String) : ParseClientsResult :=
  parseClientsLines jsDate jsFloat
    (((splitOnChar (Char.ofNat 10) text).map jsTrim).filter (fun l => l.length > 0))

/-- eventVendorOk states the referential invariant for one event: vendorIds,
when present, is a nonempty duplicate-free list of ids of existing vendors,
and every vendorCosts key occurs in vendorIds. -/
def eventVendorOk (vendors : List Vendor) (e : Event) : Bool :=
  (match e.vendorIds with
   | none => true
   | some ids => !ids.isEmpty && decide ids.Nodup && ids.all (fun v => vendorIdOk vendors v))
  && (e.vendorCosts.getD []).all (fun p => (e.vendorIds.getD []).contains p.1)

def crmOk (s : CRMData) : Bool :=
  s.events.all (eventVendorOk s.vendors)

/-- Action enumerates the add / update / delete operations of the data store
for the four entity types, with the nanoid() draws as explicit data. -/
inductive CrmAction where
  | addClient (fresh : String) (c : Client)
  | updateClient (id : String) (c : Client)
  | deleteClient (id : String)
  | addVendor (fresh : String) (v : Vendor)
  | updateVendor (id : String) (v : Vendor)
  | deleteVendor (id : String)
  | addEvent (fresh : String) (e : Event)
  | updateEvent (id : String) (e : Event)
  | deleteEvent (id : String)
  | addInvoice (fresh : String) (gen : Nat → String) (inv : InvoiceInput)
  | updateInvoice (id : String) (gen : Nat → String) (inv : InvoiceInput)
  | deleteInvoice (id : String)

def applyCrmAction : CrmAction → CRMData → CRMData
  | CrmAction.addClient fresh c, s => addClient fresh c s
  | CrmAction.updateClient i c, s => updateClient i c s
  | CrmAction.deleteClient i, s => deleteClient i s
  | CrmAction.addVendor fresh v, s => addVendor fresh v s
  | CrmAction.updateVendor i v, s => updateVendor i v s
  | CrmAction.deleteVendor i, s => deleteVendor i s
  | CrmAction.addEvent fresh e, s => addEvent fresh e s
  | CrmAction.updateEvent i e, s => updateEvent i e s
  | CrmAction.deleteEvent i, s => deleteEvent i s
  | CrmAction.addInvoice fresh gen inv, s => addInvoice fresh gen inv s
  | CrmAction.updateInvoice i gen inv, s => updateInvoice gen i inv s
  | CrmAction.deleteInvoice i, s => deleteInvoice i s

/-- itemToInput reinjects a normalized invoice item into the input type,
modeling a second update call whose items now carry their ids. -/
def itemToInput (item : InvoiceItem) : InvoiceItemInput :=
  { id := some item.id, description := item.description, amount := item.amount }

/-- sampleVendor builds a minimal vendor fixture with the given id. -/
def sampleVendor (i : String) : Vendor :=
  { id := i, name := "Vendor", service := "service", cost := none, email := none,
    phone := none, website := none, preferredContact := none, notes := none }

def sampleEvent : Event :=
  { id := "e1", name := "Event", date := "2025-06-01", clientId := "c1", venue := "Venue",
    venueCost := none, coordinator := "Coord", timeline := none, vendorIds := none,
    vendorCosts := none, status := "confirmed", estimate := none, deposit := none,
    depositPaid := none }

def sampleClient : Client :=
  { id := "c1", name := "Amy", email := "amy@x.com", phone := none, status := "lead",
    eventDate := none, budget := none, notes := none }

def sampleInvoice : Invoice :=
  { id := "i1", clientId := "c1", issueDate := "2025-01-01", dueDate := "2025-02-01",
    status := "draft", total := 100, items := [], notes := none, wix := none }

def sampleInvoiceInput : InvoiceInput :=
  { id := none, clientId := "c1", issueDate := "2025-01-01", dueDate := "2025-02-01",
    status := "draft", total := 100, items := [{ id := none, description := "Line", amount := 50 }],
    notes := none, wix := none }

/-- cascadeState is the spec's cascade scenario: one event assigned vendors
v1 and v2 with a cost recorded for v1 only. -/
def cascadeState : CRMData :=
  { clients := [], vendors := [sampleVendor "v1", sampleVendor "v2"],
    events := [{ sampleEvent with vendorIds := some ["v1", "v2"], vendorCosts := some [("v1", 100)] }],
    invoices := [] }

/-- strayCostState violates the vendorCosts-subset invariant: the event has
no vendorIds but a vendorCosts entry for v1. -/
def strayCostState : CRMData :=
  { clients := [], vendors := [sampleVendor "v1"],
    events := [{ sampleEvent with vendorIds := none, vendorCosts := some [("v1", 100)] }],
    invoices := [] }

/-- missingWixState has a single invoice whose wix record is absent. -/
def missingWixState : CRMData :=
  { clients := [], vendors := [], events := [], invoices := [sampleInvoice] }

/-- scenarioEvents is the pipeline scenario of the spec: estimates 1000
(proposed), 2000 (bid), 500 (contacted) and 4000 (confirmed, deposit
1000). -/
def scenarioEvents : List Event :=
  [{ sampleEvent with id := "e1", status := "proposed", estimate := some 1000 },
   { sampleEvent with id := "e2", status := "bid", estimate := some 2000 },
   { sampleEvent with id := "e3", status := "contacted", estimate := some 500 },
   { sampleEvent with id := "e4", status := "confirmed", estimate := some 4000, deposit := some 1000 }]

theorem foldl_add_getD (f : Event → Int) :
    ∀ (l : List Event) (a : Int), l.foldl (fun sum e => sum + f e) a = a + (l.map f).sum := by
  intro l
  induction l with
  | nil => intro a; simp
  | cons e rest ih => intro a; simp only [List.foldl_cons, List.map_cons, List.sum_cons, ih]; ring

/-- C6: the confirmed pipeline value is the sum of estimates minus the sum of
deposits over events with status confirmed (missing values count 0), floored
at zero; it is never negative, and a lone confirmed event with estimate 1000
and deposit 4000 contributes 0. -/
theorem claim_C6_pipeline_floor (events : List Event) :
    pipelineConfirmed events =
      max ((((events.filter (fun e => e.status == "confirmed")).map (fun e => e.estimate.getD 0)).sum)
        - (((events.filter (fun e => e.status == "confirmed")).map (fun e => e.deposit.getD 0)).sum)) 0
    ∧ 0 ≤ pipelineConfirmed events
    ∧ pipelineConfirmed [{ sampleEvent with estimate := some 1000, deposit := some 4000 }] = 0 := by
  refine ⟨?_, le_max_right _ 0, by decide⟩
  unfold pipelineConfirmed totalConfirmedEstimate totalConfirmedDeposits
  rw [foldl_add_getD, foldl_add_getD]
  simp

/-- C7: the proposed pipeline value sums estimates over every event whose
status is not confirmed, whatever that status is; on the four-event scenario
the non-confirmed aggregate is 3500 and the confirmed pipeline 3000. -/
theorem claim_C7_pipeline_proposed (events : List Event) :
    pipelineProposed events =
      (((events.filter (fun e => e.status != "confirmed")).map (fun e => e.estimate.getD 0)).sum)
    ∧ pipelineProposed scenarioEvents = 3500
    ∧ pipelineConfirmed scenarioEvents = 3000 := by
  refine ⟨?_, by decide, by decide⟩
  unfold pipelineProposed
  rw [foldl_add_getD]
  simp

/-- C10: sendWixInvoice sets the matching invoice's own status to "sent"
unless it is already "paid", and collectWixPayment sets it to "paid"
unconditionally; all other invoices keep their status. -/
theorem claim_C10_wix_status_mutation (s : CRMData) (f n f2 n2 i : String) :
    (sendWixInvoice f n i s).invoices.map (fun e => (e.id, e.status)) =
      s.invoices.map (fun e =>
        (e.id, if e.id == i then (if e.status == "paid" then e.status else "sent") else e.status))
    ∧ (collectWixPayment f2 n2 i s).invoices.map (fun e => (e.id, e.status)) =
      s.invoices.map (fun e => (e.id, if e.id == i then "paid" else e.status)) := by
  constructor
  · simp only [sendWixInvoice, List.map_map]
    apply List.map_congr_left
    intro e _
    by_cases h : e.id = i
    · simp [sendWixEntry, h]
    · simp [sendWixEntry, h]
  · simp only [collectWixPayment, List.map_map]
    apply List.map_congr_left
    intro e _
    by_cases h : e.id = i
    · simp [collectWixEntry, h]
    · simp [collectWixEntry, h]

theorem ensureWixDetails_some (w : InvoiceWixDetails) : ensureWixDetails (some w) = w := rfl

theorem generateWixEntry_proj_idem (f1 n1 f2 n2 i : String) (e : Invoice) :
    (generateWixEntry f2 n2 i (generateWixEntry f1 n1 i e)).wix.map (fun w => (w.invoiceId, w.paymentLink))
      = (generateWixEntry f1 n1 i e).wix.map (fun w => (w.invoiceId, w.paymentLink)) := by
  by_cases h : e.id = i
  · simp [generateWixEntry, h, ensureWixDetails_some]
  · simp [generateWixEntry, h, ensureWixDetails_some]

/-- C8: generating the wix mirror twice for the same invoice id yields the
same external invoice id and payment link as generating it once; the second
call never allocates a second external id, whatever nanoid suffix or
timestamp it draws. -/
theorem claim_C8_generate_idempotent (s : CRMData) (i f1 n1 f2 n2 : String) :
    (generateWixInvoice f2 n2 i (generateWixInvoice f1 n1 i s)).invoices.map
        (fun e => e.wix.map (fun w => (w.invoiceId, w.paymentLink)))
      = (generateWixInvoice f1 n1 i s).invoices.map
        (fun e => e.wix.map (fun w => (w.invoiceId, w.paymentLink))) := by
  simp only [generateWixInvoice, List.map_map]
  apply List.map_congr_left
  intro e _
  exact generateWixEntry_proj_idem f1 n1 f2 n2 i e

/-- C4: update never changes record ids, for any of the four entity types,
even when the supplied patch carries a different id field. -/
theorem claim_C4_id_stability (s : CRMData) (cid : String) (c : Client) (vid : String)
    (v : Vendor) (eid : String) (e : Event) (iid : String) (gen : Nat → String) (inv : InvoiceInput) :
    (updateClient cid c s).clients.map (fun x => x.id) = s.clients.map (fun x => x.id)
    ∧ (updateVendor vid v s).vendors.map (fun x => x.id) = s.vendors.map (fun x => x.id)
    ∧ (updateEvent eid e s).events.map (fun x => x.id) = s.events.map (fun x => x.id)
    ∧ (updateInvoice gen iid inv s).invoices.map (fun x => x.id) = s.invoices.map (fun x => x.id) := by
  refine ⟨?_, ?_, ?_, ?_⟩
  · simp only [updateClient, List.map_map]
    apply List.map_congr_left
    intro x _
    by_cases h : x.id = cid
    · simp [h]
    · simp [h]
  · simp only [updateVendor, List.map_map]
    apply List.map_congr_left
    intro x _
    by_cases h : x.id = vid
    · simp [h]
    · simp [h]
  · simp only [updateEvent, List.map_map]
    apply List.map_congr_left
    intro x _
    by_cases h : x.id = eid
    · simp [h]
    · simp [h]
  · simp only [updateInvoice, List.map_map]
    apply List.map_congr_left
    intro x _
    by_cases h : x.id = iid
    · simp [h]
    · simp [h]

theorem pruneVendorFromEvent_spec (v : String) (e : Event) :
    (v ∈ e.vendorIds.getD [] →
        v ∉ (pruneVendorFromEvent v e).vendorIds.getD []
        ∧ ∀ p ∈ (pruneVendorFromEvent v e).vendorCosts.getD [], p.1 ≠ v)
    ∧ (v ∉ e.vendorIds.getD [] → pruneVendorFromEvent v e = e) := by
  constructor
  · intro hv
    have hc : ((e.vendorIds.getD []).contains v) = true := List.elem_iff.mpr hv
    unfold pruneVendorFromEvent
    rw [hc]
    simp only [Bool.not_true, Bool.false_eq_true, if_false]
    constructor
    · by_cases hlen : ((e.vendorIds.getD []).filter (fun i => i != v)).length > 0
      · simp only [hlen, if_pos]
        intro hmem
        have := List.mem_filter.mp hmem
        exact (bne_iff_ne.mp this.2) rfl
      · simp [hlen]
    · intro p hp
      by_cases hlen2 : ((e.vendorCosts.getD []).filter (fun q => q.1 != v)).length > 0
      · simp only [hlen2, if_pos] at hp
        have := List.mem_filter.mp hp
        exact bne_iff_ne.mp this.2
      · simp [hlen2] at hp
  · intro hv
    have hc : ((e.vendorIds.getD []).contains v) = false := by
      by_contra hb
      exact hv (List.elem_iff.mp (by simpa using hb))
    unfold pruneVendorFromEvent
    rw [hc]
    simp

/-- C1 (amended): deleting vendor v removes its record from the vendors
collection; every event whose vendorIds contains v has v removed from
vendorIds and the key v removed from vendorCosts (empty results collapsing
to unset), while an event whose vendorIds does not contain v — including
when vendorIds is unset — is left completely unchanged, so a stray
vendorCosts key v in such an event survives; on the spec's example
(vendorIds [v1, v2], vendorCosts with a single entry for v1) deleting v1
yields vendorIds [v2] and vendorCosts unset. -/
theorem claim_C1_vendor_delete_cascade (s : CRMData) (v : String) :
    (∀ u ∈ (deleteVendor v s).vendors, u.id ≠ v)
    ∧ List.Forall₂ (fun e e2 =>
        (v ∈ e.vendorIds.getD [] →
            v ∉ e2.vendorIds.getD [] ∧ ∀ p ∈ e2.vendorCosts.getD [], p.1 ≠ v)
        ∧ (v ∉ e.vendorIds.getD [] → e2 = e))
        s.events (deleteVendor v s).events
    ∧ (deleteVendor "v1" cascadeState).events.map (fun e => (e.vendorIds, e.vendorCosts))
        = [(some ["v2"], none)] := by
  refine ⟨?_, ?_, by decide⟩
  · intro u hu
    have := List.mem_filter.mp hu
    exact bne_iff_ne.mp this.2
  · show List.Forall₂ _ s.events (s.events.map (pruneVendorFromEvent v))
    rw [List.forall₂_map_right_iff]
    refine List.forall₂_same.mpr (fun e _ => ?_)
    exact pruneVendorFromEvent_spec v e

/-- C1 counterexample: in a state where an event carries a vendorCosts entry
for v1 but no vendorIds entry, deleting v1 leaves that vendorCosts key in
place, so the claim's universally quantified key-removal fails. -/
theorem claim_C1_counterexample :
    ¬ (∀ e ∈ (deleteVendor "v1" strayCostState).events, ∀ p ∈ e.vendorCosts.getD [], p.1 ≠ "v1") := by
  decide

theorem claim_C1_witness :
    (deleteVendor "v1" cascadeState).events.map (fun e => (e.vendorIds, e.vendorCosts))
      = [(some ["v2"], none)] :=
  (claim_C1_vendor_delete_cascade cascadeState "v1").2.2

/-- C3 (amended): update on an id absent from the targeted collection is a
total no-op for clients, vendors and events; updateInvoice on a missing id
leaves every invoice's own fields unchanged but still normalizes each
invoice's wix record (an absent wix becomes the not_created default); no
variant fails or signals an error (all are total functions). -/
theorem claim_C3_update_missing_id (s : CRMData) (i : String) (c : Client) (v : Vendor)
    (e : Event) (gen : Nat → String) (inv : InvoiceInput) :
    ((∀ x ∈ s.clients, x.id ≠ i) → updateClient i c s = s)
    ∧ ((∀ x ∈ s.vendors, x.id ≠ i) → updateVendor i v s = s)
    ∧ ((∀ x ∈ s.events, x.id ≠ i) → updateEvent i e s = s)
    ∧ ((∀ x ∈ s.invoices, x.id ≠ i) →
        updateInvoice gen i inv s
          = { s with
              invoices := s.invoices.map
                (fun entry => { entry with wix := some (ensureWixDetails entry.wix) }) }) := by
  refine ⟨?_, ?_, ?_, ?_⟩
  · intro h
    unfold updateClient
    have hmap : s.clients.map
        (fun entry => if entry.id == i then { c with id := i } else entry) = s.clients := by
      conv_rhs => rw [← List.map_id s.clients]
      apply List.map_congr_left
      intro x hx
      simp [h x hx]
    rw [hmap]
  · intro h
    unfold updateVendor
    have hmap : s.vendors.map
        (fun entry => if entry.id == i then { v with id := i } else entry) = s.vendors := by
      conv_rhs => rw [← List.map_id s.vendors]
      apply List.map_congr_left
      intro x hx
      simp [h x hx]
    rw [hmap]
  · intro h
    unfold updateEvent
    have hmap : s.events.map
        (fun entry => if entry.id == i then { normalizeEvent e s.vendors with id := i } else entry)
          = s.events := by
      conv_rhs => rw [← List.map_id s.events]
      apply List.map_congr_left
      intro x hx
      simp [h x hx]
    rw [hmap]
  · intro h
    unfold updateInvoice
    congr 1
    apply List.map_congr_left
    intro x hx
    simp [h x hx]

/-- C3 counterexample: with one invoice whose wix record is absent, updating
a missing invoice id changes the data state (that invoice's wix becomes the
not_created default), so update on a missing id is not a strict no-op for
invoices. -/
theorem claim_C3_counterexample :
    updateInvoice (fun _ => "fresh") "missing" sampleInvoiceInput missingWixState
      ≠ missingWixState := by
  decide

theorem claim_C3_witness :
    updateClient "missing" sampleClient missingWixState = missingWixState :=
  (claim_C3_update_missing_id missingWixState "missing" sampleClient (sampleVendor "v9")
    sampleEvent (fun _ => "fresh") sampleInvoiceInput).1 (by decide)

theorem withInvoiceItemId_id_ne (fresh : String) (hf : fresh ≠ "") (item : InvoiceItemInput) :
    (withInvoiceItemId fresh item).id ≠ "" := by
  cases hid : item.id with
  | none => simp [withInvoiceItemId, hid, hf]
  | some j =>
      simp only [withInvoiceItemId, hid]
      by_cases hj : j = ""
      · simp [hj, hf]
      · simp [hj]

theorem normalizeInvoiceItemsFrom_id_ne (gen : Nat → String) (h : ∀ n, gen n ≠ "") :
    ∀ (items : List InvoiceItemInput) (k : Nat),
      ∀ it ∈ normalizeInvoiceItemsFrom gen k items, it.id ≠ "" := by
  intro items
  induction items with
  | nil => intro k it hit; cases hit
  | cons item rest ih =>
      intro k it hit
      rcases List.mem_cons.mp hit with hit | hit
      · exact hit ▸ withInvoiceItemId_id_ne (gen k) (h k) item
      · exact ih (k + 1) it hit

theorem withInvoiceItemId_itemToInput (fresh : String) (out : InvoiceItem) (ho : out.id ≠ "") :
    withInvoiceItemId fresh (itemToInput out) = out := by
  simp only [withInvoiceItemId, itemToInput]
  simp [ho]

theorem normalizeInvoiceItemsFrom_idem (gen gen2 : Nat → String) (h : ∀ n, gen n ≠ "") :
    ∀ (items : List InvoiceItemInput) (k j : Nat),
      normalizeInvoiceItemsFrom gen2 j ((normalizeInvoiceItemsFrom gen k items).map itemToInput)
        = normalizeInvoiceItemsFrom gen k items := by
  intro items
  induction items with
  | nil => intro k j; rfl
  | cons item rest ih =>
      intro k j
      simp only [normalizeInvoiceItemsFrom, List.map_cons]
      rw [withInvoiceItemId_itemToInput _ _ (withInvoiceItemId_id_ne (gen k) (h k) item), ih]

theorem normalizeInvoiceItemsFrom_keeps_ids (gen : Nat → String) :
    ∀ (items : List InvoiceItemInput) (k : Nat),
      List.Forall₂ (fun (inp : InvoiceItemInput) (out : InvoiceItem) =>
        ∀ j, inp.id = some j → j ≠ "" → out.id = j) items (normalizeInvoiceItemsFrom gen k items) := by
  intro items
  induction items with
  | nil => intro k; exact List.Forall₂.nil
  | cons item rest ih =>
      intro k
      refine List.Forall₂.cons ?_ (ih (k + 1))
      intro j hid hne
      simp only [withInvoiceItemId, hid]
      simp [hne]

/-- C5: invoice item id normalization is idempotent: every normalized item
carries a non-empty id, items that already had a non-empty id keep it, and
running updateInvoice again with the now-populated item ids (whatever fresh
supply the second call draws) leaves every invoice's items unchanged. -/
theorem claim_C5_item_id_idempotent (gen gen2 : Nat → String) (items : List InvoiceItemInput)
    (iid : String) (p : InvoiceInput) (s : CRMData) (h : ∀ n, gen n ≠ "") :
    (∀ it ∈ normalizeInvoiceItems gen items, it.id ≠ "")
    ∧ List.Forall₂ (fun (inp : InvoiceItemInput) (out : InvoiceItem) =>
        ∀ j, inp.id = some j → j ≠ "" → out.id = j) items (normalizeInvoiceItems gen items)
    ∧ (updateInvoice gen2 iid
          { p with items := (normalizeInvoiceItems gen p.items).map itemToInput }
          (updateInvoice gen iid p s)).invoices.map (fun e => (e.id, e.items))
        = (updateInvoice gen iid p s).invoices.map (fun e => (e.id, e.items)) := by
  refine ⟨?_, ?_, ?_⟩
  · exact fun it hit => normalizeInvoiceItemsFrom_id_ne gen h items 0 it hit
  · exact normalizeInvoiceItemsFrom_keeps_ids gen items 0
  · simp only [updateInvoice, List.map_map]
    apply List.map_congr_left
    intro x _
    by_cases hx : x.id = iid
    · simp only [Function.comp, hx, beq_self_eq_true, if_true]
      simp only [normalizeInvoiceItems]
      rw [normalizeInvoiceItemsFrom_idem gen gen2 h p.items 0 0]
    · simp [Function.comp, hx]

theorem claim_C5_witness :
    (updateInvoice (fun _ => "g2") "i1"
        { sampleInvoiceInput with
          items := (normalizeInvoiceItems (fun _ => "g1") sampleInvoiceInput.items).map itemToInput }
        (updateInvoice (fun _ => "g1") "i1" sampleInvoiceInput missingWixState)).invoices.map
        (fun e => (e.id, e.items))
      = (updateInvoice (fun _ => "g1") "i1" sampleInvoiceInput missingWixState).invoices.map
        (fun e => (e.id, e.items)) :=
  (claim_C5_item_id_idempotent (fun _ => "g1") (fun _ => "g2") sampleInvoiceInput.items "i1"
    sampleInvoiceInput missingWixState (fun n => by show "g1" ≠ ""; decide)).2.2

theorem normalizeStatus_contains_book (v : String)
    (h : containsSub "book" (jsToLower (jsTrim v)) = true) :
    normalizeStatus (some v) = "booked" := by
  by_cases hv : v = ""
  · subst hv
    exact absurd h (by decide)
  · have hv2 : (v == "") = false := beq_eq_false_iff_ne.mpr hv
    simp only [normalizeStatus, hv2, Bool.false_eq_true, if_false]
    by_cases hn : (["lead", "booked", "planning", "completed"].contains (jsToLower (jsTrim v))) = true
    · have hmem : jsToLower (jsTrim v) = "lead" ∨ jsToLower (jsTrim v) = "booked"
          ∨ jsToLower (jsTrim v) = "planning" ∨ jsToLower (jsTrim v) = "completed" := by
        simpa using List.elem_iff.mp hn
      rw [if_pos hn]
      rcases hmem with h1 | h1 | h1 | h1
      · rw [h1] at h; exact absurd h (by decide)
      · exact h1
      · rw [h1] at h; exact absurd h (by decide)
      · rw [h1] at h; exact absurd h (by decide)
    · rw [if_neg hn, if_pos h]

theorem parseOneLine_inl_name_ne (jd : String → Option String) (jf : String → Option Int)
    (line : String) (d : ClientDraft) (h : parseOneLine jd jf line = Sum.inl d) :
    d.name ≠ "" := by
  unfold parseOneLine at h
  rcases hf : (splitLine line).map (fun field => jsTrim (collapseTabRuns field)) with _ | ⟨name, rest⟩
  · rw [hf] at h
    exact Sum.noConfusion h
  · rw [hf] at h
    dsimp only at h
    by_cases hn : (name == "") = true
    · rw [if_pos hn] at h
      exact Sum.noConfusion h
    · rw [if_neg hn] at h
      have hd := Sum.inl.inj h
      have : d.name = name := by rw [← hd]
      rw [this]
      exact beq_eq_false_iff_ne.mp (Bool.not_eq_true _ ▸ hn)

theorem parseClientsLines_created_name_ne (jd : String → Option String) (jf : String → Option Int) :
    ∀ (lines : List String), ∀ c ∈ (parseClientsLines jd jf lines).created, c.name ≠ "" := by
  intro lines
  induction lines with
  | nil => intro c hc; cases hc
  | cons line rest ih =>
      intro c hc
      cases hp : parseOneLine jd jf line with
      | inl d =>
          simp only [parseClientsLines, hp] at hc
          rcases List.mem_cons.mp hc with h1 | h1
          · exact h1 ▸ parseOneLine_inl_name_ne jd jf line d hp
          · exact ih c h1
      | inr l =>
          simp only [parseClientsLines, hp] at hc
          exact ih c hc

/-- C9: the bulk importer splits each non-empty line on pipe, else comma,
else " - ", else keeps it whole, maps fields positionally, fuzzy-normalizes
the status (any value containing "book" becomes "booked"; unknown or
missing values default to "lead"), skips lines without a name, and on the
text "Amy,amy@x.com,555-1111,booked" produces exactly one client with
status booked, phone 555-1111 and no notes, whatever the host date and
float parsers do. -/
theorem claim_C9_bulk_import (jsDate : String → Option String) (jsFloat : String → Option Int)
    (text : String) :
    parseClientsFromText jsDate jsFloat "Amy,amy@x.com,555-1111,booked"
      = { created := [{ name := "Amy", email := "amy@x.com", phone := some "555-1111",
                        status := "booked", eventDate := none, budget := none, notes := none }],
          skipped := [] }
    ∧ (∀ c ∈ (parseClientsFromText jsDate jsFloat text).created, c.name ≠ "")
    ∧ (∀ v, containsSub "book" (jsToLower (jsTrim v)) = true → normalizeStatus (some v) = "booked")
    ∧ normalizeStatus none = "lead"
    ∧ normalizeStatus (some "mystery") = "lead" := by
  refine ⟨rfl, ?_, ?_, rfl, by decide⟩
  · exact fun c hc => parseClientsLines_created_name_ne jsDate jsFloat _ c hc
  · exact fun v hv => normalizeStatus_contains_book v hv

theorem claim_C9_witness :
    normalizeStatus (some "Re-Booked") = "booked" :=
  (claim_C9_bulk_import (fun _ => none) (fun _ => none) "").2.2.1 "Re-Booked" (by decide)

theorem dedupKeepFirst_subset : ∀ (seen xs : List String), ∀ v ∈ dedupKeepFirst seen xs, v ∈ xs := by
  intro seen xs
  induction xs generalizing seen with
  | nil => intro v hv; cases hv
  | cons x rest ih =>
      intro v hv
      by_cases hx : x ∈ seen
      · simp only [dedupKeepFirst, if_pos hx] at hv
        exact List.mem_cons_of_mem x (ih seen v hv)
      · simp only [dedupKeepFirst, if_neg hx] at hv
        rcases List.mem_cons.mp hv with h1 | h1
        · exact h1 ▸ List.mem_cons_self x rest
        · exact List.mem_cons_of_mem x (ih (x :: seen) v h1)

theorem dedupKeepFirst_not_seen : ∀ (seen xs : List String), ∀ v ∈ dedupKeepFirst seen xs, v ∉ seen := by
  intro seen xs
  induction xs generalizing seen with
  | nil => intro v hv; cases hv
  | cons x rest ih =>
      intro v hv
      by_cases hx : x ∈ seen
      · simp only [dedupKeepFirst, if_pos hx] at hv
        exact ih seen v hv
      · simp only [dedupKeepFirst, if_neg hx] at hv
        rcases List.mem_cons.mp hv with h1 | h1
        · exact h1 ▸ hx
        · exact fun hs => ih (x :: seen) v h1 (List.mem_cons_of_mem x hs)

theorem dedupKeepFirst_nodup : ∀ (seen xs : List String), (dedupKeepFirst seen xs).Nodup := by
  intro seen xs
  induction xs generalizing seen with
  | nil => exact List.nodup_nil
  | cons x rest ih =>
      by_cases hx : x ∈ seen
      · simp only [dedupKeepFirst, if_pos hx]
        exact ih seen
      · simp only [dedupKeepFirst, if_neg hx]
        refine List.nodup_cons.mpr ⟨?_, ih (x :: seen)⟩
        intro hmem
        exact dedupKeepFirst_not_seen (x :: seen) rest x hmem (List.mem_cons_self x seen)

theorem sanitizeVendorIds_nodup (vendorIds : Option (List String)) (vendors : List Vendor) :
    (sanitizeVendorIds vendorIds vendors).Nodup := by
  cases vendorIds with
  | none => exact List.nodup_nil
  | some ids => exact dedupKeepFirst_nodup [] _

theorem sanitizeVendorIds_valid (vendorIds : Option (List String)) (vendors : List Vendor) :
    ∀ v ∈ sanitizeVendorIds vendorIds vendors, vendorIdOk vendors v = true := by
  cases vendorIds with
  | none => intro v hv; cases hv
  | some ids =>
      intro v hv
      have := dedupKeepFirst_subset [] _ v hv
      exact (List.mem_filter.mp this).2

theorem sanitizeVendorCosts_keys (vendorCosts : Option (List (String × Int))) (vendorIds : List String) :
    ∀ p ∈ sanitizeVendorCosts vendorCosts vendorIds, p.1 ∈ vendorIds := by
  cases vendorCosts with
  | none => intro p hp; cases hp
  | some entries =>
      intro p hp
      have := (List.mem_filter.mp hp).2
      simp only [Bool.and_eq_true] at this
      exact List.elem_iff.mp this.1

theorem eventVendorOk_iff (vendors : List Vendor) (e : Event) :
    eventVendorOk vendors e = true ↔
      (∀ ids, e.vendorIds = some ids →
        ids ≠ [] ∧ ids.Nodup ∧ ∀ v ∈ ids, vendorIdOk vendors v = true)
      ∧ (∀ p ∈ e.vendorCosts.getD [], p.1 ∈ e.vendorIds.getD []) := by
  unfold eventVendorOk
  cases hv : e.vendorIds with
  | none =>
      simp [List.all_eq_true, List.elem_iff]
  | some ids =>
      simp [List.all_eq_true, List.elem_iff, List.isEmpty_iff, and_assoc]

theorem normalizeEvent_ok (e : Event) (vendors : List Vendor) :
    eventVendorOk vendors (normalizeEvent e vendors) = true := by
  rw [eventVendorOk_iff]
  unfold normalizeEvent
  dsimp only
  constructor
  · intro ids hids
    by_cases hlen : (sanitizeVendorIds e.vendorIds vendors).length > 0
    · rw [if_pos hlen] at hids
      cases hids
      refine ⟨?_, sanitizeVendorIds_nodup e.vendorIds vendors, sanitizeVendorIds_valid e.vendorIds vendors⟩
      intro hnil
      rw [hnil] at hlen
      exact Nat.lt_irrefl 0 hlen
    · rw [if_neg hlen] at hids
      exact Option.noConfusion hids
  · intro p hp
    by_cases hc : (sanitizeVendorCosts e.vendorCosts (sanitizeVendorIds e.vendorIds vendors)).length > 0
    · rw [if_pos hc] at hp
      simp only [Option.getD_some] at hp
      have hkey := sanitizeVendorCosts_keys e.vendorCosts (sanitizeVendorIds e.vendorIds vendors) p hp
      have hlen : (sanitizeVendorIds e.vendorIds vendors).length > 0 := by
        cases hsi : sanitizeVendorIds e.vendorIds vendors with
        | nil => rw [hsi] at hkey; cases hkey
        | cons a l => simp [hsi]
      rw [if_pos hlen]
      simpa using hkey
    · rw [if_neg hc] at hp
      simp at hp

theorem eventVendorOk_cons (u : Vendor) (vendors : List Vendor) (e : Event)
    (h : eventVendorOk vendors e = true) : eventVendorOk (u :: vendors) e = true := by
  rw [eventVendorOk_iff] at h ⊢
  refine ⟨?_, h.2⟩
  intro ids hids
  obtain ⟨h1, h2, h3⟩ := h.1 ids hids
  refine ⟨h1, h2, ?_⟩
  intro v hv
  have := h3 v hv
  simp only [vendorIdOk, List.any_cons, Bool.or_eq_true]
  exact Or.inr (by simpa [vendorIdOk] using this)

theorem eventVendorOk_of_vendorIdOk_eq (vendors vendors2 : List Vendor) (e : Event)
    (hids : ∀ x, vendorIdOk vendors2 x = vendorIdOk vendors x)
    (h : eventVendorOk vendors e = true) : eventVendorOk vendors2 e = true := by
  rw [eventVendorOk_iff] at h ⊢
  refine ⟨?_, h.2⟩
  intro ids hids2
  obtain ⟨h1, h2, h3⟩ := h.1 ids hids2
  exact ⟨h1, h2, fun v hv => (hids v).trans (h3 v hv)⟩

theorem updateVendor_vendorIdOk (vendorId : String) (vendor : Vendor) (vendors : List Vendor) :
    ∀ x, vendorIdOk (vendors.map (fun entry =>
        if entry.id == vendorId then { vendor with id := vendorId } else entry)) x
      = vendorIdOk vendors x := by
  intro x
  induction vendors with
  | nil => rfl
  | cons u rest ih =>
      simp only [List.map_cons, vendorIdOk, List.any_cons] at ih ⊢
      rw [ih]
      by_cases hu : u.id = vendorId
      · simp [hu]
      · simp [hu]

theorem pruneVendorFromEvent_ok (vendorId : String) (vendors : List Vendor) (e : Event)
    (h : eventVendorOk vendors e = true) :
    eventVendorOk (vendors.filter (fun entry => entry.id != vendorId))
      (pruneVendorFromEvent vendorId e) = true := by
  have hfilterOk : ∀ x, x ≠ vendorId → vendorIdOk vendors x = true →
      vendorIdOk (vendors.filter (fun entry => entry.id != vendorId)) x = true := by
    intro x hx hok
    simp only [vendorIdOk, List.any_eq_true] at hok ⊢
    obtain ⟨u, hu, hux⟩ := hok
    refine ⟨u, List.mem_filter.mpr ⟨hu, ?_⟩, hux⟩
    have : u.id = x := beq_iff_eq.mp hux
    exact bne_iff_ne.mpr (this ▸ hx)
  rw [eventVendorOk_iff] at h
  cases hin : ((e.vendorIds.getD []).contains vendorId) with
  | true =>
    unfold pruneVendorFromEvent
    rw [hin]
    simp only [Bool.not_true, Bool.false_eq_true, if_false]
    rw [eventVendorOk_iff]
    have hVC : ∀ p ∈ e.vendorCosts.getD [], p.1 ∈ e.vendorIds.getD [] := h.2
    have hIds : ∀ v ∈ (e.vendorIds.getD []).filter (fun i => i != vendorId),
        v ∈ e.vendorIds.getD [] ∧ v ≠ vendorId := by
      intro v hv
      have := List.mem_filter.mp hv
      exact ⟨this.1, bne_iff_ne.mp this.2⟩
    constructor
    · intro ids hids
      by_cases hlen : ((e.vendorIds.getD []).filter (fun i => i != vendorId)).length > 0
      · rw [if_pos hlen] at hids
        cases hids
        have hsome : ∃ ids0, e.vendorIds = some ids0 := by
          cases hv0 : e.vendorIds with
          | none => rw [hv0] at hin; cases hin
          | some ids0 => exact ⟨ids0, rfl⟩
        obtain ⟨ids0, hids0⟩ := hsome
        obtain ⟨_, hnd, hvalid⟩ := h.1 ids0 hids0
        have hgetD : e.vendorIds.getD [] = ids0 := by rw [hids0]; rfl
        refine ⟨?_, ?_, ?_⟩
        · intro hnil
          rw [hnil] at hlen
          exact Nat.lt_irrefl 0 hlen
        · rw [hgetD]
          exact hnd.filter _
        · intro v hv
          obtain ⟨hv1, hv2⟩ := hIds v hv
          exact hfilterOk v hv2 (hvalid v (hgetD ▸ hv1))
      · rw [if_neg hlen] at hids
        exact Option.noConfusion hids
    · intro p hp
      by_cases hclen : ((e.vendorCosts.getD []).filter (fun q => q.1 != vendorId)).length > 0
      · rw [if_pos hclen] at hp
        simp only [Option.getD_some] at hp
        have hpm := List.mem_filter.mp hp
        have hp1 : p.1 ∈ e.vendorIds.getD [] := hVC p hpm.1
        have hp2 : p.1 ≠ vendorId := bne_iff_ne.mp hpm.2
        have hmemf : p.1 ∈ (e.vendorIds.getD []).filter (fun i => i != vendorId) :=
          List.mem_filter.mpr ⟨hp1, bne_iff_ne.mpr hp2⟩
        have hlen : ((e.vendorIds.getD []).filter (fun i => i != vendorId)).length > 0 := by
          cases hfc : (e.vendorIds.getD []).filter (fun i => i != vendorId) with
          | nil => rw [hfc] at hmemf; cases hmemf
          | cons a l => simp [hfc]
        rw [if_pos hlen]
        simpa using hmemf
      · rw [if_neg hclen] at hp
        simp at hp
  | false =>
    unfold pruneVendorFromEvent
    rw [hin]
    simp only [Bool.not_false, if_true]
    rw [eventVendorOk_iff]
    refine ⟨?_, h.2⟩
    intro ids hids
    obtain ⟨h1, h2, h3⟩ := h.1 ids hids
    refine ⟨h1, h2, ?_⟩
    intro v hv
    have hget : e.vendorIds.getD [] = ids := by rw [hids]; rfl
    have hvne : v ≠ vendorId := by
      intro heq
      have hmm : vendorId ∈ e.vendorIds.getD [] := hget ▸ (heq ▸ hv)
      have hc : (e.vendorIds.getD []).contains vendorId = true := List.elem_iff.mpr hmm
      rw [hin] at hc
      exact Bool.noConfusion hc
    exact hfilterOk v hvne (h3 v hv)

/-- C2: every add / update / delete operation of the data store, for all
four entity types, preserves the referential invariant: each event's
vendorIds, when present, is a nonempty duplicate-free list of ids of
vendors currently in the collection, and each event's vendorCosts keys are
a subset of its vendorIds. -/
theorem claim_C2_invariant_preserved (a : CrmAction) (s : CRMData) (h : crmOk s = true) :
    crmOk (applyCrmAction a s) = true := by
  cases a with
  | addClient fresh c => exact h
  | updateClient i c => exact h
  | deleteClient i => exact h
  | addInvoice fresh gen inv => exact h
  | updateInvoice i gen inv => exact h
  | deleteInvoice i => exact h
  | addVendor fresh v =>
      simp only [applyCrmAction, addVendor, crmOk] at h ⊢
      rw [List.all_eq_true] at h ⊢
      intro e he
      exact eventVendorOk_cons _ _ e (h e he)
  | updateVendor i v =>
      simp only [applyCrmAction, updateVendor, crmOk] at h ⊢
      rw [List.all_eq_true] at h ⊢
      intro e he
      exact eventVendorOk_of_vendorIdOk_eq _ _ e (updateVendor_vendorIdOk i v s.vendors) (h e he)
  | deleteVendor i =>
      simp only [applyCrmAction, deleteVendor, crmOk] at h ⊢
      rw [List.all_eq_true] at h ⊢
      intro e he
      rw [List.mem_map] at he
      obtain ⟨e0, he0, rfl⟩ := he
      exact pruneVendorFromEvent_ok i s.vendors e0 (h e0 he0)
  | addEvent fresh e =>
      simp only [applyCrmAction, addEvent, crmOk] at h ⊢
      rw [List.all_eq_true] at h ⊢
      intro e2 he2
      rcases List.mem_cons.mp he2 with h1 | h1
      · rw [h1]
        exact normalizeEvent_ok e s.vendors
      · exact h e2 h1
  | updateEvent i e =>
      simp only [applyCrmAction, updateEvent, crmOk] at h ⊢
      rw [List.all_eq_true] at h ⊢
      intro e2 he2
      rw [List.mem_map] at he2
      obtain ⟨e0, he0, rfl⟩ := he2
      by_cases hb : (e0.id == i) = true
      · rw [if_pos hb]
        exact normalizeEvent_ok e s.vendors
      · rw [if_neg hb]
        exact h e0 he0
  | deleteEvent i =>
      simp only [applyCrmAction, deleteEvent, crmOk] at h ⊢
      rw [List.all_eq_true] at h ⊢
      intro e he
      exact h e (List.mem_of_mem_filter he)

theorem claim_C2_witness :
    crmOk (applyCrmAction (CrmAction.deleteVendor "v1") cascadeState) = true :=
  claim_C2_invariant_preserved (CrmAction.deleteVendor "v1") cascadeState (by decide)
